import Mathlib

/-!
Verification development for the xtlog repository (a loguru-based logging
facade).  The Python sources `xtlog/utils.py`, `xtlog/logger.py` and
`xtlog/config.py` are shallowly embedded below: pure helpers become Lean
functions on `List Char` / `String`, Python dictionaries become association
lists, raised exceptions become `Except String`, and a Python call that never
returns (an infinite loop) is modelled by `Option` with `none` standing for
divergence.  POSIX path primitives (`os.path.normpath`, `os.path.split`,
`os.path.splitext`, `os.path.commonpath`, `os.path.relpath`) are embedded
from their CPython `posixpath` implementations, since `simplify_file_path`
delegates to them.  The project root that `utils.py` derives from its own
`__file__` location is an environment value and is threaded through as an
explicit parameter.
-/

namespace Xtlog

/-- Split a list of characters at every occurrence of the separator, the
semantics of Python's `str.split(sep)` for a one-character separator: the
result is always non-empty and empty fields are kept. -/
def splitChar (sep : Char) : List Char → List (List Char)
  | [] => [[]]
  | x :: xs =>
    let r := splitChar sep xs
    if x = sep then [] :: r
    else
      match r with
      | h :: t => (x :: h) :: t
      | [] => [[x]]

/-- Interleave a separator between fields, the semantics of Python's
`sep.join(fields)` (and of `posixpath.join` on separator-free components). -/
def joinSep (sep : List Char) : List (List Char) → List Char
  | [] => []
  | [x] => x
  | x :: xs => x ++ sep ++ joinSep sep xs

/-- Longest common prefix of two lists.  CPython's `commonpath`/`commonprefix`
compute this via `min`/`max` and a scan for the first mismatch; for two
sequences that is exactly the elementwise common prefix. -/
def commonPref {α : Type} [DecidableEq α] : List α → List α → List α
  | a :: as, b :: bs => if a = b then a :: commonPref as bs else []
  | _, _ => []

/-- Embedding of `posixpath.split`: split a path into `(head, tail)` at the
last slash; the head keeps its trailing slashes only when it consists of
slashes alone. -/
def pySplitL (p : List Char) : List Char × List Char :=
  let tail := (p.reverse.takeWhile (· ≠ '/')).reverse
  if tail.length = p.length then ([], p)
  else
    let head := p.take (p.length - tail.length)
    let head' := if head.any (· ≠ '/') then (head.reverse.dropWhile (· = '/')).reverse else head
    (head', tail)

/-- Embedding of `posixpath.splitext`: split off the extension at the last
dot of the final component, unless the characters before that dot (within the
final component) are all dots. -/
def pySplitextL (p : List Char) : List Char × List Char :=
  let name := (p.reverse.takeWhile (· ≠ '/')).reverse
  let dir := p.take (p.length - name.length)
  if name.any (· = '.') then
    let ext := (name.reverse.takeWhile (· ≠ '.')).reverse
    let stem := name.take (name.length - ext.length - 1)
    if stem.any (· ≠ '.') then (dir ++ stem, '.' :: ext) else (p, [])
  else (p, [])

/-- Embedding of `posixpath.normpath`: collapse repeated separators and
`.`/`..` components, preserving the special POSIX double-slash root. -/
def normpathL (p : List Char) : List Char :=
  if p = [] then ['.']
  else
    let initSlashes : Nat :=
      if ['/'].isPrefixOf p then
        if ['/', '/'].isPrefixOf p ∧ ¬ ['/', '/', '/'].isPrefixOf p then 2 else 1
      else 0
    let comps := splitChar '/' p
    let newComps := comps.foldl
      (fun acc comp =>
        if comp = [] ∨ comp = ['.'] then acc
        else if comp ≠ ['.', '.'] ∨ (initSlashes = 0 ∧ acc = []) ∨ acc.getLast? = some ['.', '.'] then
          acc ++ [comp]
        else if acc = [] then acc else acc.dropLast)
      []
    let path := List.replicate initSlashes '/' ++ joinSep ['/'] newComps
    if path = [] then ['.'] else path

/-- Embedding of `posixpath.commonpath` for exactly two paths: `none` models
the `ValueError` raised on a mix of absolute and relative paths (the case
`utils.py` catches explicitly). -/
def commonpath2L (a b : List Char) : Option (List Char) :=
  if (['/'].isPrefixOf a) = (['/'].isPrefixOf b) then
    let fields := fun (l : List Char) =>
      (splitChar '/' l).filter (fun c => !(c == [] || c == ['.']))
    let common := commonPref (fields a) (fields b)
    some ((if ['/'].isPrefixOf a then ['/'] else []) ++ joinSep ['/'] common)
  else none

/-- Embedding of `posixpath.relpath` for absolute arguments (the only way
`utils.py` reaches it: `commonpath` has already required both paths to be
absolute).  `abspath` on an absolute path is `normpath`. -/
def relpathAbsL (path start : List Char) : List Char :=
  let pa := normpathL path
  let sa := normpathL start
  let pl := (splitChar '/' pa).filter (fun c => !(c == []))
  let sl := (splitChar '/' sa).filter (fun c => !(c == []))
  let i := (commonPref sl pl).length
  let rel := List.replicate (sl.length - i) ['.', '.'] ++ pl.drop i
  if rel = [] then ['.'] else joinSep ['/'] rel

/-- Embedding of the component-collection loop of `simplify_file_path`
(`while path_temp and path_temp != os.path.sep: path_temp, part = os.path.split(path_temp); ...`),
iterated on explicit fuel so that it is structurally recursive.  When
`posixpath.split` fails to shrink its argument, the remaining Python state
repeats forever (`split` returned its own input with an empty tail), and the
loop is abandoned with `none`; running out of fuel also gives `none`, but
`pySplitPartsFuel_irrel` shows the canonical fuel below never does. -/
def pySplitPartsFuel : Nat → List Char → List (List Char) → Option (List (List Char))
  | 0, _, _ => none
  | fuel + 1, p, acc =>
    if p = [] ∨ p = ['/'] then some acc
    else
      let ht := pySplitL p
      if ht.1.length < p.length then
        pySplitPartsFuel fuel ht.1 (if ht.2 = [] then acc else ht.2 :: acc)
      else none

/-- The component-collection loop at its canonical fuel, which suffices for
every terminating run because each productive iteration strictly shrinks the
path. -/
def pySplitPartsL (p : List Char) (acc : List (List Char)) : Option (List (List Char)) :=
  pySplitPartsFuel (p.length + 1) p acc

/-- The path that `simplify_file_path` goes on to decompose: the normalized
input, made relative to the (normalized) project root when `commonpath`
says it lies under it. -/
def relativizedL (root fp : List Char) : List Char :=
  let fp1 := normpathL fp
  let rootN := normpathL root
  let isInProject :=
    match commonpath2L rootN fp1 with
    | some c => c == rootN
    | none => false
  if isInProject then relpathAbsL fp1 rootN else fp1

/-- Rendering of the f-string `f"{pre}:{line_no}@{func_name}"` shared by every
return statement of `simplify_file_path`. -/
def tagL (pre lineStr fnStr : List Char) : List Char :=
  pre ++ ':' :: (lineStr ++ '@' :: fnStr)

/-- Embedding of `simplify_file_path` (utils.py lines 70-141) with the line
number already rendered to a string (Python renders it inside the f-string).
The `except` arms at lines 135-141 are unreachable in this model: the only
exception the body can raise is the `ValueError` of `commonpath`, which the
source catches inline; `none` records the divergence of the component loop
instead. -/
def simplifyCoreL (root fp lineStr fnStr : List Char) : Option (List Char) :=
  if fp = [] ∨ fp = "unknown".data then some (tagL "unknown".data lineStr fnStr)
  else
    match pySplitPartsL (relativizedL root fp) [] with
    | none => none
    | some parts =>
      if parts = [] then some (tagL "unknown".data lineStr fnStr)
      else
        let filename := (pySplitextL (parts.getLastD [])).1
        if parts.length > 1 then
          let moduleParts :=
            if parts.length ≥ 3 then parts.dropLast.drop (parts.dropLast.length - 2)
            else parts.dropLast
          let modulePath := joinSep ['.'] (moduleParts.drop (moduleParts.length - 2))
          if modulePath ≠ [] then some (tagL (modulePath ++ '.' :: filename) lineStr fnStr)
          else some (tagL filename lineStr fnStr)
        else some (tagL filename lineStr fnStr)

/-- String-level wrapper for `simplify_file_path` with a string line field. -/
def simplifyCore (root fp lineStr fnStr : String) : Option String :=
  (simplifyCoreL root.data fp.data lineStr.data fnStr.data).map String.mk

/-- The public `simplify_file_path(file_path, line_no, func_name)` signature:
an integer line number, rendered exactly as Python's `str`. -/
def simplify_file_path (root fp : String) (n : Int) (fn : String) : Option String :=
  simplifyCore root fp (toString n) fn

/-! ### Model of Python runtime values

`format_record` receives an arbitrary loguru record dictionary, so the
embedding needs a small universe of Python values: `None`, ints, bools,
strings, dicts (association lists keyed by strings) and objects (the only
values `callable` can accept).  An object models exactly the attribute
surface `get_function_location` probes. -/

/-- Attribute surface of a Python object as probed by
`get_function_location`: an optional `__code__` (with its `co_filename` and
`co_firstlineno`), an optional `__name__`, the outcome of
`inspect.getfile`/`inspect.getsourcelines` (`none` models those raising), and
an optional `__module__`. -/
structure PyObjCore where
  code : Option (String × Int)
  name : Option String
  getfileLine : Option (String × Int)
  module : Option String

/-- A Python object: whether `callable(obj)` holds, its own attributes, and
the result of `inspect.unwrap(obj)` (`none` models `unwrap` raising, which
`contextlib.suppress` swallows so the original object is kept). -/
structure PyObj where
  callable : Bool
  core : PyObjCore
  unwrapped : Option PyObjCore

/-- Python values flowing through a loguru record. -/
inductive PyVal where
  | pnone : PyVal
  | pbool : Bool → PyVal
  | pint : Int → PyVal
  | pstr : String → PyVal
  | pdict : List (String × PyVal) → PyVal
  | pobj : PyObj → PyVal

/-- Python truthiness: `None`, `False`, `0`, `""` and `{}` are falsy;
objects are truthy. -/
def pyTruthy : PyVal → Bool
  | .pnone => false
  | .pbool b => b
  | .pint n => n != 0
  | .pstr s => s != ""
  | .pdict d => !d.isEmpty
  | .pobj _ => true

/-- Python `str()` of a value.  Dict and object reprs are stood in for by
fixed placeholder text: no claim inspects the rendering of those cases, only
that it is some string. -/
def pyStr : PyVal → String
  | .pnone => "None"
  | .pbool b => if b then "True" else "False"
  | .pint n => toString n
  | .pstr s => s
  | .pdict _ => "\x7b...\x7d"
  | .pobj _ => "<object>"

/-- Python `d.get(key)` / `d[key]` lookup on a dict with values of type `V`. -/
def lookupD {V : Type} : List (String × V) → String → Option V
  | [], _ => none
  | (k, v) :: t, key => if k = key then some v else lookupD t key

/-- Python `d[key] = value`: replace in place when the key exists, append
otherwise (Python dicts keep the original position of an updated key). -/
def setD {V : Type} : List (String × V) → String → V → List (String × V)
  | [], k, v => [(k, v)]
  | (k0, v0) :: t, k, v => if k0 = k then (k0, v) :: t else (k0, v0) :: setD t k v

/-- Python `del d[key]`. -/
def delD {V : Type} (d : List (String × V)) (k : String) : List (String × V) :=
  d.filter (fun e => e.1 != k)

/-- Python `key in d`. -/
def hasKeyD {V : Type} (d : List (String × V)) (k : String) : Bool :=
  (lookupD d k).isSome

/-- Embedding of `get_function_location` (utils.py lines 28-67).  The result
triple is `(file, line, function)`; `Except.error` models an exception
escaping the function.  The `hasattr(inspect, "unwrap")` guard is constantly
true on the supported interpreters. -/
def get_function_location (f : PyObj) : Except String (String × Int × String) :=
  if !f.callable then .ok ("unknown", 0, "unknown")
  else
    let original := f.unwrapped.getD f.core
    match original.code with
    | some code =>
      -- `original_func.__name__` at line 58 is evaluated outside any
      -- try/except: a callable exposing `__code__` but no `__name__`
      -- raises AttributeError out of the function.
      match original.name with
      | some nm => .ok (code.1, code.2, nm)
      | none => .error "AttributeError"
    | none =>
      -- the try at lines 61-64: any failure falls through to the
      -- getattr-with-default last resort, which is total.
      match original.getfileLine, original.name with
      | some fl, some nm => .ok (fl.1, fl.2, nm)
      | _, _ => .ok (f.core.module.getD "unknown", 0, f.core.name.getD "unknown")

/-- The Python-level call `simplify_file_path(file_path, line_no, func_name)`
made by `format_record`'s default branch, where the arguments are arbitrary
record values: a falsy or `"unknown"` path short-circuits before any
`os.path` call (so no type check happens), a non-string truthy path makes
`os.path.normpath` raise `TypeError`, and the f-string renders the line and
function arguments with `str`. -/
def simplifyPy (root : String) (fp line fn : PyVal) : Option (Except String String) :=
  if !pyTruthy fp || (match fp with | .pstr s => s == "unknown" | _ => false) then
    some (.ok ("unknown:" ++ pyStr line ++ "@" ++ pyStr fn))
  else
    match fp with
    | .pstr s => (simplifyCore root s (pyStr line) (pyStr fn)).map Except.ok
    | _ => some (.error "TypeError")

/-- The record types used by `format_record`. -/
abbrev PyDict := List (String × PyVal)

/-- The inner try of `format_record`'s no-callfrom branch (utils.py lines
188-198): derive file/line/function from the record itself and simplify; any
exception caught there yields the `"unknown:0@unknown"` tag.  The result is
the string stored into `extra["simplified_path"]`; `none` models divergence
of the path-splitting loop. -/
def defaultBranch (root : String) (record : PyDict) : Option String :=
  let fpVal : PyVal :=
    match lookupD record "file" with
    | some (.pdict fd) => (lookupD fd "path").getD (.pstr "unknown")
    | some v => .pstr (pyStr v)
    | none => .pstr "unknown"
  let lineVal := (lookupD record "line").getD (.pint 0)
  let fnVal := (lookupD record "function").getD (.pstr "unknown")
  match simplifyPy root fpVal lineVal fnVal with
  | none => none
  | some (.ok s) => some s
  | some (.error _) => some "unknown:0@unknown"

/-- The part of `format_record`'s outer try that runs once `record["extra"]`
has been read as a dict: dispatch on the `callfrom` value (utils.py lines
165-198).  `some (.error e)` is an exception reaching the outer `except`;
`none` is divergence. -/
def formatTryBody (root : String) (record : PyDict) (extraD : List (String × PyVal)) :
    Option (Except String PyDict) :=
  match (lookupD extraD "callfrom").getD .pnone with
  | .pnone =>
    -- `callfrom is None`: use the record's own location information.
    (defaultBranch root record).map (fun s =>
      .ok (setD record "extra" (.pdict (setD extraD "simplified_path" (.pstr s)))))
  | .pobj o =>
    if o.callable then
      match get_function_location o with
      | .error e => some (.error e)
      | .ok loc =>
        match simplify_file_path root loc.1 loc.2.1 loc.2.2 with
        | none => none
        | some sp =>
          let e1 := setD extraD "simplified_path" (.pstr sp)
          let e2 := if hasKeyD e1 "callfrom" then delD e1 "callfrom" else e1
          some (.ok (setD record "extra" (.pdict e2)))
    else some (.error "TypeError")
  | _ =>
    -- a non-callable, non-None callfrom: `raise TypeError(...)` at line 170.
    some (.error "TypeError")

/-- The body of `format_record`'s outer try (utils.py lines 163-198),
operating on a record whose `"extra"` key has already been materialized. -/
def formatTry (root : String) (record : PyDict) : Option (Except String PyDict) :=
  match lookupD record "extra" with
  | some (.pdict extraD) => formatTryBody root record extraD
  | some _ =>
    -- `record["extra"].get(...)` on a non-mapping raises AttributeError.
    some (.error "AttributeError")
  | none => some (.error "KeyError")

/-- Embedding of `format_record` (utils.py lines 144-202).  The outer
`except` stores the `"unknown:0@unknown"` tag — an item assignment that
itself raises `TypeError` when `record["extra"]` is not a mutable mapping, in
which case that error escapes the function. -/
def format_record (root : String) (record : PyDict) : Option (Except String PyDict) :=
  let extra0 := (lookupD record "extra").getD (.pdict [])
  let record1 := setD record "extra" extra0
  match formatTry root record1 with
  | none => none
  | some (.ok r) => some (.ok r)
  | some (.error _) =>
    match extra0 with
    | .pdict d =>
      some (.ok (setD record1 "extra" (.pdict (setD d "simplified_path" (.pstr "unknown:0@unknown")))))
    | _ => some (.error "TypeError")

/-! ### Model of `xtlog/logger.py` and `xtlog/config.py`

The loguru backend is abstracted to sink counters; the thread-safety
machinery (the reentrant lock and the double-checked read) collapses to a
single registry lookup under the sequential semantics of the embedding. -/

/-- The canonical level table `LOG_LEVELS` from `xtlog/config.py` line 25. -/
def LOG_LEVELS : List (String × Int) :=
  [("TRACE", 5), ("DEBUG", 10), ("INFO", 20), ("SUCCESS", 25),
   ("WARNING", 30), ("ERROR", 40), ("CRITICAL", 50)]

/-- `LogCls.DEFAULT_LOG_LEVEL` (logger.py line 95). -/
def DEFAULT_LOG_LEVEL : Int := 10

/-- Python `LOG_LEVELS.get(name, default)` without the default. -/
def lookupLevel (s : String) : Option Int :=
  (LOG_LEVELS.find? (fun kv => kv.1 == s)).map (·.2)

/-- A `level` argument: Python's `int | str`. -/
inductive LevelArg where
  | num : Int → LevelArg
  | name : String → LevelArg

/-- Python's `level.upper()`, embedded as a characterwise ASCII uppercase
map (the canonical table only contains ASCII keys, so the exotic Unicode
cases where CPython's `str.upper` differs cannot reach a table hit that this
map would miss for ASCII input). -/
def pyUpper (s : String) : String :=
  String.mk (s.data.map Char.toUpper)

/-- The string-to-int resolution performed by `set_level` (logger.py lines
272-273): uppercase the name, look it up, fall back to the default level. -/
def resolve_level : LevelArg → Int
  | .num n => n
  | .name s => (lookupLevel (pyUpper s)).getD DEFAULT_LOG_LEVEL

/-- Observable state of the logger for the level claims: the configured
numeric level and how many times the sinks have been rebuilt
(`_reinitialize_logger` calls). -/
structure LogState where
  level : Int
  rebuilds : Nat
deriving DecidableEq

/-- Embedding of `LogCls.set_level` (logger.py lines 270-277): resolve, then
rebuild only when the resolved level differs from the current one. -/
def set_level (st : LogState) (lv : LevelArg) : LogState :=
  let n := resolve_level lv
  if n ≠ st.level then { level := n, rebuilds := st.rebuilds + 1 } else st

/-- One iteration of the `update_config` loop (logger.py lines 282-285): a
keyword is applied only when its key already exists in the configuration and
its value differs, in which case the changed flag is raised. -/
def ucStep {V : Type} [DecidableEq V] (st : List (String × V) × Bool) (kv : String × V) :
    List (String × V) × Bool :=
  match lookupD st.1 kv.1 with
  | some cur => if cur ≠ kv.2 then (setD st.1 kv.1 kv.2, true) else st
  | none => st

/-- Embedding of `LogCls.update_config` (logger.py lines 279-288), generic in
the configuration value type: fold the keyword arguments over the config and
report whether a rebuild (`_reinitialize_logger`) was triggered. -/
def update_config {V : Type} [DecidableEq V] (cfg kwargs : List (String × V)) :
    List (String × V) × Bool :=
  kwargs.foldl ucStep (cfg, false)

/-- Python's `enable_console_logging or IS_DEV` from `LogCls.__init__`
(logger.py line 119): `None` and `False` are both falsy, so the environment
flag wins unless an explicit `True` was passed. -/
def pyOrConsole (passed : Option Bool) (isDev : Bool) : Bool :=
  match passed with
  | some true => true
  | some false => isDev
  | none => isDev

/-- The sink-enablement part of the configuration stored by
`LogCls.__init__`: `enable_file_logging` is stored verbatim,
`enable_console_logging` goes through `pyOrConsole`. -/
structure SinkCfg where
  enable_file_logging : Bool
  enable_console_logging : Bool
deriving DecidableEq

/-- Embedding of the sink flags computed in `LogCls.__init__` (logger.py
lines 106-120). -/
def initSinkCfg (file : Bool) (console : Option Bool) (isDev : Bool) : SinkCfg :=
  ⟨file, pyOrConsole console isDev⟩

/-- Embedding of `LogCls._setup_console_logging` (logger.py lines 233-247):
the `logger.add` call is wrapped in try/except whose handler only prints, so
the function never raises; on success one console handler is added. -/
def setup_console_logging (addConsoleOk : Bool) (consoleHandlers : Nat) : Nat :=
  if addConsoleOk then consoleHandlers + 1 else consoleHandlers

/-- Embedding of `LogCls._setup_file_logging` (logger.py lines 191-231).
`makedirsOk` is the outcome of `os.makedirs` (line 202, outside the try:
a failure there propagates), `addFileOk` the outcome of `logger.add`
(inside the try: a failure enters degraded mode).  State is the sink
configuration plus (file, console) handler counts. -/
def setup_file_logging (makedirsOk addFileOk addConsoleOk : Bool) (c : SinkCfg)
    (handlers : Nat × Nat) : Except String (SinkCfg × Nat × Nat) :=
  if !makedirsOk then .error "OSError"
  else if addFileOk then .ok (c, handlers.1 + 1, handlers.2)
  else
    let c1 : SinkCfg := { c with enable_file_logging := false }
    if !c1.enable_console_logging then
      .ok ({ c1 with enable_console_logging := true },
           handlers.1, setup_console_logging addConsoleOk handlers.2)
    else .ok (c1, handlers.1, handlers.2)

/-- Embedding of the sink-setup portion of `LogCls._initialize_logger`
(logger.py lines 158-181): starting from zero handlers (after
`logger.remove()`), set up the file sink when enabled, then the console sink
when (now) enabled. -/
def initLogger (makedirsOk addFileOk addConsoleOk : Bool) (c : SinkCfg) :
    Except String (SinkCfg × Nat × Nat) :=
  let afterFile :=
    if c.enable_file_logging then setup_file_logging makedirsOk addFileOk addConsoleOk c (0, 0)
    else .ok (c, 0, 0)
  match afterFile with
  | .error e => .error e
  | .ok (c1, f, k) =>
    if c1.enable_console_logging then .ok (c1, f, setup_console_logging addConsoleOk k)
    else .ok (c1, f, k)

/-- The `SingletonMixin` class registry: class identities and instance
identities are modelled as naturals, with `next` the identity the next
construction would allocate (a fresh object address). -/
structure Registry where
  entries : List (Nat × Nat)
  next : Nat
deriving DecidableEq

/-- Registry lookup (`cls in cls._instances` / `cls._instances[cls]`). -/
def lookupReg (r : Registry) (cls : Nat) : Option Nat :=
  (r.entries.find? (fun e => e.1 == cls)).map (·.2)

/-- Embedding of `SingletonMixin.__new__` (logger.py lines 24-59) under the
sequential semantics: a registry hit returns the stored instance (the
constructor arguments only feed `_reinit_if_needed`, which reconfigures that
same instance); a miss allocates a fresh instance and stores it.  The
double-checked lock collapses to the single lookup. -/
def construct (r : Registry) (cls : Nat) (args : List Int) : Nat × Registry :=
  match lookupReg r cls with
  | some i => (i, r)
  | none => (r.next, { entries := (cls, r.next) :: r.entries, next := r.next + 1 })

/-- Embedding of `SingletonMixin.reset_instance` (logger.py lines 66-70):
`cls._instances.pop(cls, None)`. -/
def reset_instance (r : Registry) (cls : Nat) : Registry :=
  { r with entries := r.entries.filter (fun e => e.1 != cls) }

/-- Registry well-formedness: every stored instance identity was allocated
before `next`. -/
def wfReg (r : Registry) : Prop :=
  ∀ e ∈ r.entries, e.2 < r.next

/-! ### Basic lemmas about the embedded dictionaries and the split loop -/

lemma lookupD_setD_self {V : Type} (l : List (String × V)) (k : String) (v : V) :
    lookupD (setD l k v) k = some v := by
  induction l with
  | nil => simp [setD, lookupD]
  | cons a t ih =>
    obtain ⟨k0, v0⟩ := a
    by_cases h : k0 = k
    · subst h; simp [setD, lookupD]
    · simpa [setD, lookupD, h] using ih

lemma lookupD_setD_ne {V : Type} (l : List (String × V)) (k k' : String) (v : V)
    (h : k' ≠ k) : lookupD (setD l k v) k' = lookupD l k' := by
  have hne : ¬ k = k' := fun hc => h hc.symm
  induction l with
  | nil => simp [setD, lookupD, hne]
  | cons a t ih =>
    obtain ⟨k0, v0⟩ := a
    by_cases hk : k0 = k
    · subst hk; simp [setD, lookupD, hne]
    · by_cases hk' : k0 = k' <;> simp [setD, lookupD, hk, hk', h, ih]

lemma lookupD_delD_self {V : Type} (l : List (String × V)) (k : String) :
    lookupD (delD l k) k = none := by
  induction l with
  | nil => simp [delD, lookupD]
  | cons a t ih =>
    obtain ⟨k0, v0⟩ := a
    by_cases h : k0 = k
    · subst h; simpa [delD, List.filter_cons] using ih
    · simpa [delD, List.filter_cons, bne_iff_ne, h, lookupD] using ih

lemma lookupD_delD_ne {V : Type} (l : List (String × V)) (k k' : String)
    (h : k' ≠ k) : lookupD (delD l k) k' = lookupD l k' := by
  induction l with
  | nil => simp [delD, lookupD]
  | cons a t ih =>
    obtain ⟨k0, v0⟩ := a
    simp only [delD] at ih ⊢
    by_cases hk : k0 = k
    · subst hk
      have hne : ¬ k0 = k' := fun hc => h hc.symm
      simpa [List.filter_cons, lookupD, hne] using ih
    · by_cases hk' : k0 = k' <;>
        simp [List.filter_cons, bne_iff_ne, lookupD, hk, hk', h, ih]

lemma lookupD_of_hasKeyD_false {V : Type} (l : List (String × V)) (k : String)
    (h : hasKeyD l k = false) : lookupD l k = none := by
  unfold hasKeyD at h
  cases hl : lookupD l k <;> simp [hl] at h ⊢

/-- The canonical fuel of `pySplitPartsL` is irrelevant: any fuel exceeding
the path length computes the same value. -/
lemma pySplitPartsFuel_irrel (f1 : Nat) :
    ∀ (f2 : Nat) (p : List Char) (acc : List (List Char)),
      p.length < f1 → p.length < f2 →
      pySplitPartsFuel f1 p acc = pySplitPartsFuel f2 p acc := by
  induction f1 with
  | zero => intro f2 p acc h1 _; omega
  | succ n ih =>
    intro f2 p acc h1 h2
    cases f2 with
    | zero => omega
    | succ m =>
      by_cases hb : p = [] ∨ p = ['/']
      · simp [pySplitPartsFuel, hb]
      · by_cases hlt : (pySplitL p).1.length < p.length
        · simp only [pySplitPartsFuel, if_neg hb, if_pos hlt]
          exact ih m _ _ (by omega) (by omega)
        · simp [pySplitPartsFuel, hb, hlt]

/-! ### The `update_config` fold -/

/-- Behaviour of the `update_config` fold from an arbitrary starting
configuration and changed flag: keys absent from the configuration stay
absent, unpassed keys keep their value, the changed flag ends true exactly
when it started true or some keyword hits an existing key with a different
value, and a run of entirely unknown keywords is the identity. -/
lemma ucFold_spec {V : Type} [DecidableEq V] :
    ∀ (kwargs : List (String × V)) (cfg : List (String × V)) (flag : Bool),
      (kwargs.map Prod.fst).Nodup →
      (∀ k, lookupD cfg k = none →
        lookupD (kwargs.foldl ucStep (cfg, flag)).1 k = none) ∧
      (∀ k, k ∉ kwargs.map Prod.fst →
        lookupD (kwargs.foldl ucStep (cfg, flag)).1 k = lookupD cfg k) ∧
      ((kwargs.foldl ucStep (cfg, flag)).2 = true ↔
        flag = true ∨ ∃ kv ∈ kwargs, ∃ cur, lookupD cfg kv.1 = some cur ∧ cur ≠ kv.2) ∧
      ((∀ kv ∈ kwargs, lookupD cfg kv.1 = none) →
        kwargs.foldl ucStep (cfg, flag) = (cfg, flag)) := by
  intro kwargs
  induction kwargs with
  | nil => intro cfg flag _; refine ⟨fun k hk => hk, fun k _ => rfl, by simp, fun _ => rfl⟩
  | cons kv kws ih =>
    intro cfg flag hnd
    obtain ⟨key, v⟩ := kv
    have hnd' : (kws.map Prod.fst).Nodup := (List.nodup_cons.mp hnd).2
    have hnotin : key ∉ kws.map Prod.fst := by
      simpa using (List.nodup_cons.mp hnd).1
    rw [List.foldl_cons]
    cases hcur : lookupD cfg key with
    | none =>
      have hstep : ucStep (cfg, flag) (key, v) = (cfg, flag) := by simp [ucStep, hcur]
      rw [hstep]
      obtain ⟨ih1, ih2, ih3, ih4⟩ := ih cfg flag hnd'
      refine ⟨ih1, fun k hk => ih2 k (by
        rw [List.map_cons, List.mem_cons] at hk; push_neg at hk; exact hk.2), ?_, ?_⟩
      · rw [ih3]
        constructor
        · rintro (hf | ⟨kv', hmem, hc⟩)
          · exact Or.inl hf
          · exact Or.inr ⟨kv', List.mem_cons_of_mem _ hmem, hc⟩
        · rintro (hf | ⟨kv', hmem, cur, hlk, hne⟩)
          · exact Or.inl hf
          · rcases List.mem_cons.mp hmem with heq | hmem'
            · subst heq; rw [hcur] at hlk; cases hlk
            · exact Or.inr ⟨kv', hmem', cur, hlk, hne⟩
      · intro hall
        exact ih4 (fun kv' hm => hall kv' (List.mem_cons_of_mem _ hm))
    | some cur =>
      by_cases hne : cur = v
      · have hstep : ucStep (cfg, flag) (key, v) = (cfg, flag) := by simp [ucStep, hcur, hne]
        rw [hstep]
        obtain ⟨ih1, ih2, ih3, ih4⟩ := ih cfg flag hnd'
        refine ⟨ih1, fun k hk => ih2 k (by
          rw [List.map_cons, List.mem_cons] at hk; push_neg at hk; exact hk.2), ?_, ?_⟩
        · rw [ih3]
          constructor
          · rintro (hf | ⟨kv', hmem, hc⟩)
            · exact Or.inl hf
            · exact Or.inr ⟨kv', List.mem_cons_of_mem _ hmem, hc⟩
          · rintro (hf | ⟨kv', hmem, cur', hlk, hne'⟩)
            · exact Or.inl hf
            · rcases List.mem_cons.mp hmem with heq | hmem'
              · subst heq
                rw [hcur] at hlk
                cases hlk
                exact absurd hne hne'
              · exact Or.inr ⟨kv', hmem', cur', hlk, hne'⟩
        · intro hall
          have := hall (key, v) (List.mem_cons_self _ _)
          rw [hcur] at this; cases this
      · have hstep : ucStep (cfg, flag) (key, v) = (setD cfg key v, true) := by
          simp [ucStep, hcur, hne]
        rw [hstep]
        obtain ⟨ih1, ih2, ih3, _⟩ := ih (setD cfg key v) true hnd'
        refine ⟨?_, ?_, ?_, ?_⟩
        · intro k hk
          have hkne : k ≠ key := by
            intro h; subst h; rw [hcur] at hk; cases hk
          exact ih1 k (by rw [lookupD_setD_ne cfg key k v hkne]; exact hk)
        · intro k hk
          rw [List.map_cons, List.mem_cons] at hk
          push_neg at hk
          rw [ih2 k hk.2, lookupD_setD_ne cfg key k v hk.1]
        · constructor
          · intro _
            exact Or.inr ⟨(key, v), List.mem_cons_self _ _, cur, hcur, hne⟩
          · intro _
            exact ih3.mpr (Or.inl rfl)
        · intro hall
          have := hall (key, v) (List.mem_cons_self _ _)
          rw [hcur] at this; cases this

/-- Claim C10: keyword keys not already present in the configuration are
silently ignored — they are not added, cause no error and never by
themselves trigger a rebuild; a rebuild happens exactly when at least one
recognized key receives a different value; unpassed keys are untouched. -/
theorem claim10_update_config {V : Type} [DecidableEq V]
    (cfg kwargs : List (String × V)) (hnd : (kwargs.map Prod.fst).Nodup) :
    (∀ k, lookupD cfg k = none → lookupD (update_config cfg kwargs).1 k = none) ∧
    (∀ k, k ∉ kwargs.map Prod.fst →
      lookupD (update_config cfg kwargs).1 k = lookupD cfg k) ∧
    ((update_config cfg kwargs).2 = true ↔
      ∃ kv ∈ kwargs, ∃ cur, lookupD cfg kv.1 = some cur ∧ cur ≠ kv.2) ∧
    ((∀ kv ∈ kwargs, lookupD cfg kv.1 = none) →
      update_config cfg kwargs = (cfg, false)) := by
  obtain ⟨h1, h2, h3, h4⟩ := ucFold_spec kwargs cfg false hnd
  refine ⟨h1, h2, ?_, h4⟩
  rw [show update_config cfg kwargs = kwargs.foldl ucStep (cfg, false) from rfl, h3]
  simp

/-- Claim C10 witness: an unrecognized keyword leaves the configuration and
the rebuild flag untouched. -/
theorem claim10_update_config_witness :
    lookupD (update_config [("level", (10 : Int))] [("bogus", (99 : Int))]).1 "bogus" = none ∧
    update_config [("level", (10 : Int))] [("bogus", (99 : Int))] = ([("level", 10)], false) := by
  obtain ⟨h1, _, _, h4⟩ :=
    claim10_update_config [("level", (10 : Int))] [("bogus", (99 : Int))] (by decide)
  refine ⟨h1 "bogus" rfl, h4 ?_⟩
  intro kv hkv
  have h := List.mem_singleton.mp hkv
  subst h
  rfl

/-! ### Registry lemmas -/

lemma construct_of_lookup_some (r : Registry) (cls : Nat) (args : List Int) (i : Nat)
    (h : lookupReg r cls = some i) : construct r cls args = (i, r) := by
  simp [construct, h]

lemma construct_of_lookup_none (r : Registry) (cls : Nat) (args : List Int)
    (h : lookupReg r cls = none) :
    construct r cls args = (r.next, ⟨(cls, r.next) :: r.entries, r.next + 1⟩) := by
  simp [construct, h]

lemma lookupReg_construct (r : Registry) (cls : Nat) (args : List Int) :
    lookupReg (construct r cls args).2 cls = some (construct r cls args).1 := by
  cases h : lookupReg r cls with
  | some i => rw [construct_of_lookup_some r cls args i h]; exact h
  | none => rw [construct_of_lookup_none r cls args h]; simp [lookupReg, List.find?]

lemma find?_filter_cls_none (l : List (Nat × Nat)) (cls : Nat) :
    List.find? (fun e => e.1 == cls) (l.filter (fun e => e.1 != cls)) = none := by
  induction l with
  | nil => rfl
  | cons a t ih =>
    by_cases h : a.1 = cls
    · simpa [List.filter_cons, h] using ih
    · simpa [List.filter_cons, List.find?, bne_iff_ne, h] using ih

lemma lookupReg_reset (r : Registry) (cls : Nat) :
    lookupReg (reset_instance r cls) cls = none := by
  simp [lookupReg, reset_instance, find?_filter_cls_none]

lemma construct_fst_lt (r : Registry) (cls : Nat) (args : List Int) (hwf : wfReg r) :
    (construct r cls args).1 < (construct r cls args).2.next := by
  cases h : lookupReg r cls with
  | some i =>
    rw [construct_of_lookup_some r cls args i h]
    have hmem : (cls, i) ∈ r.entries := by
      unfold lookupReg at h
      cases hf : r.entries.find? (fun e => e.1 == cls) with
      | none => simp [hf] at h
      | some e =>
        simp only [hf, Option.map_some'] at h
        have hm := List.mem_of_find?_eq_some hf
        have he : e.1 = cls := by simpa using List.find?_some hf
        have : e = (cls, i) := by
          cases e; simp at he h; simp [he, h]
        exact this ▸ hm
    exact hwf _ hmem
  | none =>
    rw [construct_of_lookup_none r cls args h]
    simp

/-! ### Claim theorems for the call-site resolver -/

/-- A realizable Python callable with unusual attributes: an object whose
class carries a `__code__` attribute and defines `__call__`, but whose
instances expose no `__name__` (instances do not inherit the class object's
own `__name__`). -/
def badCallable : PyObj :=
  { callable := true
    core := { code := some ("a.py", 1), name := none, getfileLine := none, module := none }
    unwrapped := none }

/-- Claim C5 counterexample: on a callable exposing `__code__` but no
`__name__`, line 58 of utils.py (`original_func.__name__`) raises
`AttributeError` outside any try/except, so an error escapes
`get_function_location` — refuting "no raised error ever escapes". -/
theorem claim5_resolver_cex :
    get_function_location badCallable = .error "AttributeError" := rfl

/-- Claim C5, amended: a non-callable input yields exactly
`("unknown", 0, "unknown")` without raising, and no error escapes for any
callable whose unwrapped form either lacks `__code__` or also carries
`__name__`; only a callable with `__code__` but no `__name__` lets an
`AttributeError` propagate. -/
theorem claim5_resolver_total :
    (∀ f : PyObj, f.callable = false →
      get_function_location f = .ok ("unknown", 0, "unknown")) ∧
    (∀ f : PyObj,
      ((f.unwrapped.getD f.core).code.isSome → (f.unwrapped.getD f.core).name.isSome) →
      ∃ r, get_function_location f = .ok r) := by
  constructor
  · intro f h
    simp [get_function_location, h]
  · intro f h
    unfold get_function_location
    by_cases hc : f.callable
    · simp only [hc, Bool.not_true, Bool.false_eq_true, if_false]
      cases hcode : (f.unwrapped.getD f.core).code with
      | none =>
        cases hfl : (f.unwrapped.getD f.core).getfileLine with
        | none =>
          exact ⟨(f.core.module.getD "unknown", 0, f.core.name.getD "unknown"),
            by simp [hcode, hfl]⟩
        | some fl =>
          cases hnm : (f.unwrapped.getD f.core).name with
          | none =>
            exact ⟨(f.core.module.getD "unknown", 0, f.core.name.getD "unknown"),
              by simp [hcode, hfl, hnm]⟩
          | some nm => exact ⟨(fl.1, fl.2, nm), by simp [hcode, hfl, hnm]⟩
      | some code =>
        obtain ⟨nm, hnm⟩ := Option.isSome_iff_exists.mp (h (by simp [hcode]))
        exact ⟨(code.1, code.2, nm), by simp [hcode, hnm]⟩
    · simp [hc]

/-- Claim C5 witness: a plain function object (callable, with compiled-code
introspection and a name) resolves without error, and a non-callable value
resolves to the unknown triple. -/
theorem claim5_resolver_total_witness :
    get_function_location
      { callable := false
        core := { code := none, name := none, getfileLine := none, module := none }
        unwrapped := none } = .ok ("unknown", 0, "unknown") ∧
    ∃ r, get_function_location
      { callable := true
        core := { code := some ("/proj/src/a.py", 12), name := some "f",
                  getfileLine := none, module := some "src.a" }
        unwrapped := none } = .ok r := by
  constructor
  · exact claim5_resolver_total.1 _ rfl
  · exact claim5_resolver_total.2 _ (by intro _; rfl)

/-! ### Character-flow lemmas for the path layer

Every character of the module prefix that `simplify_file_path` prints comes
from the input path, from the path punctuation `.` and `/`, or from the
literal `unknown`; these lemmas track that flow through each POSIX helper. -/

lemma splitChar_mem_subset (sep : Char) :
    ∀ (cs : List Char) (part : List Char), part ∈ splitChar sep cs →
      ∀ c ∈ part, c ∈ cs := by
  intro cs
  induction cs with
  | nil =>
    intro part hp c hc
    simp [splitChar] at hp
    subst hp
    cases hc
  | cons x xs ih =>
    intro part hp c hc
    by_cases hx : x = sep
    · simp only [splitChar, if_pos hx] at hp
      rcases List.mem_cons.mp hp with hnil | hmem
      · subst hnil; cases hc
      · exact List.mem_cons_of_mem _ (ih part hmem c hc)
    · simp only [splitChar, if_neg hx] at hp
      cases hr : splitChar sep xs with
      | nil =>
        rw [hr] at hp; simp at hp; subst hp
        simp at hc
        exact hc ▸ List.mem_cons_self _ _
      | cons hd tl =>
        rw [hr] at hp
        rcases List.mem_cons.mp hp with heq | hmem
        · subst heq
          rcases List.mem_cons.mp hc with hcx | hch
          · exact hcx ▸ List.mem_cons_self _ _
          · exact List.mem_cons_of_mem _ (ih hd (hr ▸ List.mem_cons_self _ _) c hch)
        · exact List.mem_cons_of_mem _ (ih part (hr ▸ List.mem_cons_of_mem _ hmem) c hc)

lemma joinSep_mem (sep : List Char) :
    ∀ (parts : List (List Char)) (c : Char), c ∈ joinSep sep parts →
      c ∈ sep ∨ ∃ part ∈ parts, c ∈ part := by
  intro parts
  induction parts with
  | nil => intro c hc; cases hc
  | cons x xs ih =>
    intro c hc
    cases xs with
    | nil =>
      right
      exact ⟨x, List.mem_cons_self _ _, by simpa [joinSep] using hc⟩
    | cons y ys =>
      simp only [joinSep, List.append_assoc, List.mem_append] at hc
      rcases hc with hx | hs | hrest
      · exact Or.inr ⟨x, List.mem_cons_self _ _, hx⟩
      · exact Or.inl hs
      · rcases ih c hrest with hs | ⟨part, hpm, hcp⟩
        · exact Or.inl hs
        · exact Or.inr ⟨part, List.mem_cons_of_mem _ hpm, hcp⟩

lemma commonPref_mem {α : Type} [DecidableEq α] :
    ∀ (a b : List α) (x : α), x ∈ commonPref a b → x ∈ a := by
  intro a
  induction a with
  | nil => intro b x hx; cases b <;> cases hx
  | cons ah at' ih =>
    intro b x hx
    cases b with
    | nil => cases hx
    | cons bh bt =>
      by_cases h : ah = bh
      · simp only [commonPref, if_pos h] at hx
        rcases List.mem_cons.mp hx with heq | hmem
        · exact heq ▸ List.mem_cons_self _ _
        · exact List.mem_cons_of_mem _ (ih bt x hmem)
      · simp only [commonPref, if_neg h] at hx; cases hx

lemma pySplitL_fst_subset (p : List Char) : ∀ c ∈ (pySplitL p).1, c ∈ p := by
  intro c hc
  unfold pySplitL at hc
  by_cases hl : ((p.reverse.takeWhile (· ≠ '/')).reverse).length = p.length
  · rw [if_pos hl] at hc; cases hc
  · rw [if_neg hl] at hc
    simp only at hc
    by_cases ha : (p.take (p.length - ((p.reverse.takeWhile (· ≠ '/')).reverse).length)).any
        (· ≠ '/') = true
    · rw [if_pos ha] at hc
      rw [List.mem_reverse] at hc
      have := (List.dropWhile_suffix (l := (p.take
        (p.length - ((p.reverse.takeWhile (· ≠ '/')).reverse).length)).reverse)
        (p := (· = '/'))).subset hc
      rw [List.mem_reverse] at this
      exact List.take_subset _ _ this
    · rw [if_neg ha] at hc
      exact List.take_subset _ _ hc

lemma pySplitL_snd_subset (p : List Char) : ∀ c ∈ (pySplitL p).2, c ∈ p := by
  intro c hc
  unfold pySplitL at hc
  by_cases hl : ((p.reverse.takeWhile (· ≠ '/')).reverse).length = p.length
  · rw [if_pos hl] at hc; exact hc
  · rw [if_neg hl] at hc
    simp only at hc
    rw [List.mem_reverse] at hc
    have := ( List.takeWhile_prefix (l := p.reverse) (p := (· ≠ '/'))).subset hc
    rwa [List.mem_reverse] at this

lemma pySplitextL_fst_subset (p : List Char) : ∀ c ∈ (pySplitextL p).1, c ∈ p := by
  intro c hc
  unfold pySplitextL at hc
  set name := (p.reverse.takeWhile (· ≠ '/')).reverse with hname
  have hnamesub : ∀ c ∈ name, c ∈ p := by
    intro c hc
    rw [hname, List.mem_reverse] at hc
    have := ( List.takeWhile_prefix (l := p.reverse) (p := (· ≠ '/'))).subset hc
    rwa [List.mem_reverse] at this
  by_cases hdot : name.any (· = '.') = true
  · rw [if_pos hdot] at hc
    by_cases hstem : (name.take (name.length -
        ((name.reverse.takeWhile (· ≠ '.')).reverse).length - 1)).any (· ≠ '.') = true
    · rw [if_pos hstem] at hc
      simp only at hc
      rcases List.mem_append.mp hc with hdir | hst
      · exact List.take_subset _ _ hdir
      · exact hnamesub c (List.take_subset _ _ hst)
    · rw [if_neg hstem] at hc
      exact hc
  · rw [if_neg hdot] at hc
    exact hc

lemma foldl_mem_subset {α : Type} (f : List α → α → List α)
    (hf : ∀ acc x, ∀ y ∈ f acc x, y ∈ acc ∨ y = x) :
    ∀ (l : List α) (acc : List α) (y : α), y ∈ l.foldl f acc → y ∈ acc ∨ y ∈ l := by
  intro l
  induction l with
  | nil => intro acc y hy; exact Or.inl hy
  | cons a t ih =>
    intro acc y hy
    rw [List.foldl_cons] at hy
    rcases ih (f acc a) y hy with hacc | ht
    · rcases hf acc a y hacc with h1 | h2
      · exact Or.inl h1
      · exact Or.inr (h2 ▸ List.mem_cons_self _ _)
    · exact Or.inr (List.mem_cons_of_mem _ ht)

lemma normpathL_mem (p : List Char) :
    ∀ c ∈ normpathL p, c ∈ p ∨ c = '/' ∨ c = '.' := by
  intro c hc
  unfold normpathL at hc
  by_cases hp : p = []
  · rw [if_pos hp] at hc
    simp at hc
    exact Or.inr (Or.inr hc)
  · rw [if_neg hp] at hc
    simp only at hc
    set initSlashes : Nat :=
      if ['/'].isPrefixOf p then
        if ['/', '/'].isPrefixOf p ∧ ¬ ['/', '/', '/'].isPrefixOf p then 2 else 1
      else 0 with hinit
    set step := fun (acc : List (List Char)) (comp : List Char) =>
      if comp = [] ∨ comp = ['.'] then acc
      else if comp ≠ ['.', '.'] ∨ (initSlashes = 0 ∧ acc = []) ∨ acc.getLast? = some ['.', '.'] then
        acc ++ [comp]
      else if acc = [] then acc else acc.dropLast with hstep
    have hstepsub : ∀ acc x, ∀ y ∈ step acc x, y ∈ acc ∨ y = x := by
      intro acc x y hy
      rw [hstep] at hy
      simp only at hy
      split at hy
      · exact Or.inl hy
      · split at hy
        · rcases List.mem_append.mp hy with h1 | h2
          · exact Or.inl h1
          · exact Or.inr (List.mem_singleton.mp h2)
        · split at hy
          · exact Or.inl hy
          · exact Or.inl (List.dropLast_subset _ hy)
    by_cases hpath : List.replicate initSlashes '/' ++
        joinSep ['/'] ((splitChar '/' p).foldl step []) = []
    · rw [if_pos hpath] at hc
      simp at hc
      exact Or.inr (Or.inr hc)
    · rw [if_neg hpath] at hc
      rcases List.mem_append.mp hc with hrep | hjoin
      · exact Or.inr (Or.inl (List.eq_of_mem_replicate hrep))
      · rcases joinSep_mem ['/'] _ c hjoin with hsep | ⟨part, hpm, hcp⟩
        · exact Or.inr (Or.inl (List.mem_singleton.mp hsep))
        · rcases foldl_mem_subset step hstepsub (splitChar '/' p) [] part hpm with h0 | hcm
          · cases h0
          · exact Or.inl (splitChar_mem_subset '/' p part hcm c hcp)

lemma relpathAbsL_mem (p s : List Char) :
    ∀ c ∈ relpathAbsL p s, c ∈ normpathL p ∨ c = '/' ∨ c = '.' := by
  intro c hc
  unfold relpathAbsL at hc
  simp only at hc
  set pl := (splitChar '/' (normpathL p)).filter (fun c => !(c == [])) with hpl
  set sl := (splitChar '/' (normpathL s)).filter (fun c => !(c == [])) with hsl
  set rel := List.replicate (sl.length - (commonPref sl pl).length) ['.', '.'] ++
    pl.drop (commonPref sl pl).length with hrel
  by_cases hre : rel = []
  · rw [if_pos hre] at hc
    simp at hc
    exact Or.inr (Or.inr hc)
  · rw [if_neg hre] at hc
    rcases joinSep_mem ['/'] rel c hc with hsep | ⟨part, hpm, hcp⟩
    · exact Or.inr (Or.inl (List.mem_singleton.mp hsep))
    · rw [hrel] at hpm
      rcases List.mem_append.mp hpm with hdots | hdrop
      · have := List.eq_of_mem_replicate hdots
        subst this
        simp at hcp
        exact Or.inr (Or.inr hcp)
      · have hinpl : part ∈ pl := List.drop_subset _ _ hdrop
        rw [hpl] at hinpl
        have hin := List.mem_of_mem_filter hinpl
        exact Or.inl (splitChar_mem_subset '/' _ part hin c hcp)

lemma relativizedL_mem (root fp : List Char) :
    ∀ c ∈ relativizedL root fp, c ∈ fp ∨ c = '/' ∨ c = '.' := by
  intro c hc
  unfold relativizedL at hc
  simp only at hc
  split at hc
  · rcases relpathAbsL_mem _ _ c hc with h1 | h2
    · rcases normpathL_mem _ c h1 with ha | hb
      · exact normpathL_mem fp c ha
      · exact Or.inr hb
    · exact Or.inr h2
  · exact normpathL_mem fp c hc

lemma pySplitPartsFuel_mem :
    ∀ (fuel : Nat) (p : List Char) (acc parts : List (List Char)),
      pySplitPartsFuel fuel p acc = some parts →
      ∀ part ∈ parts, part ∈ acc ∨ ∀ c ∈ part, c ∈ p := by
  intro fuel
  induction fuel with
  | zero => intro p acc parts h; cases h
  | succ n ih =>
    intro p acc parts h part hpart
    unfold pySplitPartsFuel at h
    split at h
    · cases h
      exact Or.inl hpart
    · dsimp only at h
      split at h
      · rcases ih (pySplitL p).1 _ parts h part hpart with hacc | hchars
        · by_cases ht : (pySplitL p).2 = []
          · rw [if_pos ht] at hacc
            exact Or.inl hacc
          · rw [if_neg ht] at hacc
            rcases List.mem_cons.mp hacc with heq | hmem
            · exact Or.inr (fun c hc => pySplitL_snd_subset p c (heq ▸ hc))
            · exact Or.inl hmem
        · exact Or.inr (fun c hc => pySplitL_fst_subset p c (hchars c hc))
      · cases h

lemma pySplitPartsFuel_ne_nil :
    ∀ (fuel : Nat) (p : List Char) (acc parts : List (List Char)),
      pySplitPartsFuel fuel p acc = some parts →
      (∀ a ∈ acc, a ≠ []) → ∀ part ∈ parts, part ≠ [] := by
  intro fuel
  induction fuel with
  | zero => intro p acc parts h; cases h
  | succ n ih =>
    intro p acc parts h hacc part hpart
    unfold pySplitPartsFuel at h
    split at h
    · cases h
      exact hacc part hpart
    · dsimp only at h
      split at h
      · refine ih (pySplitL p).1 _ parts h ?_ part hpart
        by_cases ht : (pySplitL p).2 = []
        · rw [if_pos ht]; exact hacc
        · rw [if_neg ht]
          intro a ha
          rcases List.mem_cons.mp ha with heq | hmem
          · exact heq ▸ ht
          · exact hacc a hmem
      · cases h

lemma getLastD_mem {α : Type} : ∀ (l : List α) (d : α), l ≠ [] → l.getLastD d ∈ l := by
  intro l
  induction l with
  | nil => intro d h; exact absurd rfl h
  | cons a t ih =>
    intro d _
    cases ht : t with
    | nil => simp [List.getLastD]
    | cons b t' =>
      rw [List.getLastD_cons]
      exact List.mem_cons_of_mem _ (ht ▸ ih a (by simp [ht]))

/-- Every successful result of `simplify_file_path`'s core is a tag whose
free prefix draws its characters from the input path, path punctuation, or
the literal `unknown`. -/
lemma simplifyCoreL_shape (root fp lineStr fnStr l : List Char)
    (h : simplifyCoreL root fp lineStr fnStr = some l) :
    ∃ pre, l = tagL pre lineStr fnStr ∧
      ∀ c ∈ pre, c ∈ fp ∨ c = '/' ∨ c = '.' ∨ c ∈ "unknown".data := by
  unfold simplifyCoreL at h
  split at h
  · cases h
    exact ⟨"unknown".data, rfl, fun c hc => Or.inr (Or.inr (Or.inr hc))⟩
  · cases hps : pySplitPartsL (relativizedL root fp) [] with
    | none => rw [hps] at h; cases h
    | some parts =>
      have hflow : ∀ part ∈ parts, ∀ c ∈ part, c ∈ fp ∨ c = '/' ∨ c = '.' := by
        intro part hpm c hc
        rcases pySplitPartsFuel_mem _ _ _ _ hps part hpm with h0 | hch
        · cases h0
        · exact relativizedL_mem root fp c (hch c hc)
      simp only [hps] at h
      split at h
      · cases h
        exact ⟨"unknown".data, rfl, fun c hc => Or.inr (Or.inr (Or.inr hc))⟩
      · next hpe =>
        have hfn : ∀ c ∈ (pySplitextL (parts.getLastD [])).1,
            c ∈ fp ∨ c = '/' ∨ c = '.' := by
          intro c hc
          exact hflow _ (getLastD_mem parts [] hpe) c (pySplitextL_fst_subset _ c hc)
        have hfname : ∀ c ∈ (pySplitextL (parts.getLastD [])).1,
            c ∈ fp ∨ c = '/' ∨ c = '.' ∨ c ∈ "unknown".data := by
          intro c hc
          rcases hfn c hc with h1 | h2 | h3
          · exact Or.inl h1
          · exact Or.inr (Or.inl h2)
          · exact Or.inr (Or.inr (Or.inl h3))
        have hmodule : ∀ (mp : List (List Char)), (∀ part ∈ mp, part ∈ parts) →
            ∀ c ∈ joinSep ['.'] mp ++ '.' :: (pySplitextL (parts.getLastD [])).1,
              c ∈ fp ∨ c = '/' ∨ c = '.' ∨ c ∈ "unknown".data := by
          intro mp hmp c hc
          rcases List.mem_append.mp hc with hjoin | hfc
          · rcases joinSep_mem ['.'] _ c hjoin with hsep | ⟨part, hpm, hcp⟩
            · exact Or.inr (Or.inr (Or.inl (List.mem_singleton.mp hsep)))
            · rcases hflow part (hmp part hpm) c hcp with h1 | h2 | h3
              · exact Or.inl h1
              · exact Or.inr (Or.inl h2)
              · exact Or.inr (Or.inr (Or.inl h3))
          · rcases List.mem_cons.mp hfc with hdot | hcf
            · exact Or.inr (Or.inr (Or.inl hdot))
            · exact hfname c hcf
        split at h
        · split at h
          · split at h
            · cases h
              exact ⟨_, rfl, hmodule _ (fun part hpm => List.dropLast_subset _
                (List.drop_subset _ _ (List.drop_subset _ _ hpm)))⟩
            · cases h
              exact ⟨_, rfl, hfname⟩
          · split at h
            · cases h
              exact ⟨_, rfl, hmodule _ (fun part hpm => List.dropLast_subset _
                (List.drop_subset _ _ hpm))⟩
            · cases h
              exact ⟨_, rfl, hfname⟩
        · cases h
          exact ⟨_, rfl, hfname⟩

/-- Characters produced by `Nat.digitChar` below base 10 are digits. -/
lemma digitChar_isDigit (m : Nat) (hm : m < 10) : (Nat.digitChar m).isDigit = true := by
  interval_cases m <;> decide

lemma toDigitsCore_mem :
    ∀ (fuel n : Nat) (ds : List Char), (∀ c ∈ ds, c.isDigit = true) →
      ∀ c ∈ Nat.toDigitsCore 10 fuel n ds, c.isDigit = true := by
  intro fuel
  induction fuel with
  | zero => intro n ds hds c hc; exact hds c hc
  | succ k ih =>
    intro n ds hds c hc
    unfold Nat.toDigitsCore at hc
    have hdig : ∀ c ∈ Nat.digitChar (n % 10) :: ds, c.isDigit = true := by
      intro c hc
      rcases List.mem_cons.mp hc with heq | hmem
      · exact heq ▸ digitChar_isDigit _ (Nat.mod_lt _ (by norm_num))
      · exact hds c hmem
    dsimp only at hc
    split at hc
    · exact hdig c hc
    · exact ih _ _ hdig c hc

/-- All characters of `str(line_no)` for an integer line number are digits or
the minus sign — in particular never `:` or `@`. -/
lemma int_toString_chars (n : Int) :
    ∀ c ∈ (toString n).data, c = '-' ∨ c.isDigit = true := by
  intro c hc
  have hnat : ∀ (m : Nat) (c : Char), c ∈ (Nat.repr m).data → c.isDigit = true := by
    intro m c hc
    have : (Nat.repr m).data = Nat.toDigits 10 m := rfl
    rw [this] at hc
    exact toDigitsCore_mem _ _ _ (by intro x hx; cases hx) c hc
  cases n with
  | ofNat m =>
    have : (toString (Int.ofNat m)).data = (Nat.repr m).data := rfl
    rw [this] at hc
    exact Or.inr (hnat m c hc)
  | negSucc m =>
    have : (toString (Int.negSucc m)).data = '-' :: (Nat.repr (m + 1)).data := by
      show (Int.repr (Int.negSucc m)).data = _
      simp [Int.repr, String.data_append]
    rw [this] at hc
    rcases List.mem_cons.mp hc with heq | hmem
    · exact Or.inl heq
    · exact Or.inr (hnat _ c hmem)

/-- Claim C3 counterexample: a function name containing `@` makes the result
contain two `@` characters, refuting "contains exactly one `:` and exactly
one `@`" (the claim quantifies over every string `func_name`). -/
theorem claim3_simplify_cex :
    simplify_file_path "/proj" "x" 1 "f@g" = some "x:1@f@g" ∧
    ("x:1@f@g".data.count '@' = 2) ∧ ¬ ("x:1@f@g".data.count '@' = 1) := by
  refine ⟨rfl, by decide, by decide⟩

/-- Claim C3, amended: whenever `simplify_file_path` returns (it fails to
return only when the component loop diverges on a POSIX `//`-rooted path that
escaped relativization), the result is a non-empty string ending with the
suffix `:<line_no>@<func_name>`, and it contains exactly one `:` and exactly
one `@` provided `file_path` and `func_name` themselves contain neither. -/
theorem claim3_simplify_total (root fp : String) (n : Int) (fn : String) (out : String)
    (h : simplify_file_path root fp n fn = some out) :
    out ≠ "" ∧
    (∃ pre : List Char, out.data = pre ++ ':' :: ((toString n).data ++ '@' :: fn.data)) ∧
    ((∀ c ∈ fp.data, c ≠ ':' ∧ c ≠ '@') → (∀ c ∈ fn.data, c ≠ ':' ∧ c ≠ '@') →
      out.data.count ':' = 1 ∧ out.data.count '@' = 1) := by
  obtain ⟨l, hl, hout⟩ : ∃ l, simplifyCoreL root.data fp.data (toString n).data fn.data =
      some l ∧ String.mk l = out := by
    unfold simplify_file_path simplifyCore at h
    exact Option.map_eq_some'.mp h
  obtain ⟨pre, hpre, hflow⟩ := simplifyCoreL_shape _ _ _ _ _ hl
  have hdata : out.data = pre ++ ':' :: ((toString n).data ++ '@' :: fn.data) := by
    rw [← hout, hpre]; rfl
  refine ⟨?_, ⟨pre, hdata⟩, ?_⟩
  · intro hempty
    rw [hempty] at hdata
    exact absurd hdata.symm (by simp)
  · intro hfp hfn
    have hpreC : ∀ c ∈ pre, c ≠ ':' ∧ c ≠ '@' := by
      intro c hc
      rcases hflow c hc with h1 | h2 | h3 | h4
      · exact hfp c h1
      · exact ⟨h2 ▸ (by decide), h2 ▸ (by decide)⟩
      · exact ⟨h3 ▸ (by decide), h3 ▸ (by decide)⟩
      · constructor <;> (intro hcEq; subst hcEq; revert h4; decide)
    have hlineC : ∀ c ∈ (toString n).data, c ≠ ':' ∧ c ≠ '@' := by
      intro c hc
      rcases int_toString_chars n c hc with h1 | h2
      · exact ⟨h1 ▸ (by decide), h1 ▸ (by decide)⟩
      · constructor <;> (intro hcEq; subst hcEq; revert h2; decide)
    have hcp : pre.count ':' = 0 := by
      rw [List.count_eq_zero]
      intro hmem
      exact (hpreC _ hmem).1 rfl
    have hcp2 : pre.count '@' = 0 := by
      rw [List.count_eq_zero]
      intro hmem
      exact (hpreC _ hmem).2 rfl
    have hln : (toString n).data.count ':' = 0 := by
      rw [List.count_eq_zero]
      intro hmem
      exact (hlineC _ hmem).1 rfl
    have hln2 : (toString n).data.count '@' = 0 := by
      rw [List.count_eq_zero]
      intro hmem
      exact (hlineC _ hmem).2 rfl
    have hfn1 : fn.data.count ':' = 0 := by
      rw [List.count_eq_zero]
      intro hmem
      exact (hfn _ hmem).1 rfl
    have hfn2 : fn.data.count '@' = 0 := by
      rw [List.count_eq_zero]
      intro hmem
      exact (hfn _ hmem).2 rfl
    rw [hdata]
    simp [List.count_append, List.count_cons, hcp, hcp2, hln, hln2, hfn1, hfn2]

/-- Claim C3 witness: a clean relative path inside the project. -/
theorem claim3_simplify_total_witness :
    simplify_file_path "/proj" "/proj/pkg/mod.py" 7 "run" = some "pkg.mod:7@run" ∧
    "pkg.mod:7@run" ≠ "" ∧
    "pkg.mod:7@run".data.count ':' = 1 ∧ "pkg.mod:7@run".data.count '@' = 1 := by
  have h := claim3_simplify_total "/proj" "/proj/pkg/mod.py" 7 "run" "pkg.mod:7@run" rfl
  exact ⟨rfl, h.1, h.2.2 (by decide) (by decide)⟩

/-! ### Claim C6: the path-simplification algorithm against the spec -/

/-- Modelled from the spec: the module prefix is built from "at most the two
directory components nearest the file (the second-and-third-from-last
segments when at least three segments exist, otherwise all-but-the-last)". -/
def specModuleSegs (parts : List (List Char)) : List (List Char) :=
  if 3 ≤ parts.length then
    [parts.getD (parts.length - 3) [], parts.getD (parts.length - 2) []]
  else parts.dropLast

lemma drop_pred2 {α : Type} (m : List α) (d : α) :
    2 ≤ m.length → m.drop (m.length - 2) = [m.getD (m.length - 2) d, m.getD (m.length - 1) d] := by
  induction m with
  | nil => intro h; simp at h
  | cons a t ih =>
    intro h
    rcases Nat.lt_or_ge t.length 2 with h2 | h2
    · cases t with
      | nil => simp at h
      | cons b t' =>
        cases t' with
        | nil => simp [List.getD]
        | cons c t'' => simp at h2; omega
    · have e0 : (a :: t).length - 2 = (t.length - 2) + 1 := by simp; omega
      have e1 : (a :: t).length - 1 = (t.length - 1) + 1 := by simp; omega
      rw [e0, e1, List.drop_succ_cons, ih h2, List.getD_cons_succ, List.getD_cons_succ]

lemma dropLast_getD {α : Type} :
    ∀ (l : List α) (i : Nat) (d : α), i + 1 < l.length → l.dropLast.getD i d = l.getD i d := by
  intro l
  induction l with
  | nil => intro i d h; simp at h
  | cons a t ih =>
    intro i d h
    cases t with
    | nil => simp at h
    | cons b t' =>
      rw [List.dropLast_cons₂]
      cases i with
      | zero => simp
      | succ j =>
        rw [List.getD_cons_succ, List.getD_cons_succ]
        exact ih j d (by simp at h ⊢; omega)

/-- The source's module-part selection (`parts[-3:-1]` when at least three
segments, else `parts[:-1]`, then `[-2:]`) computes exactly the spec's
selection. -/
lemma moduleSegs_code_eq_spec (parts : List (List Char)) (h2 : 2 ≤ parts.length) :
    (if parts.length ≥ 3 then parts.dropLast.drop (parts.dropLast.length - 2)
     else parts.dropLast).drop
      ((if parts.length ≥ 3 then parts.dropLast.drop (parts.dropLast.length - 2)
        else parts.dropLast).length - 2) = specModuleSegs parts := by
  by_cases h3 : parts.length ≥ 3
  · rw [if_pos h3]
    have hdl : 2 ≤ parts.dropLast.length := by rw [List.length_dropLast]; omega
    rw [drop_pred2 parts.dropLast ([] : List Char) hdl]
    unfold specModuleSegs
    rw [if_pos h3]
    have i1 : parts.dropLast.length - 2 = parts.length - 3 := by
      rw [List.length_dropLast]; omega
    have i2 : parts.dropLast.length - 1 = parts.length - 2 := by
      rw [List.length_dropLast]; omega
    simp only [List.length_cons, List.length_nil, Nat.zero_add, Nat.reduceAdd,
      Nat.sub_self, List.drop_zero]
    rw [i1, i2, dropLast_getD parts _ _ (by omega), dropLast_getD parts _ _ (by omega)]
  · rw [if_neg h3]
    unfold specModuleSegs
    rw [if_neg h3]
    have : parts.dropLast.length - 2 = 0 := by rw [List.length_dropLast]; omega
    rw [this, List.drop_zero]

/-- The printed module prefix is never empty in the multi-component case:
for at least three segments it contains a dot, and for exactly two it is the
(nonempty) single parent component. -/
lemma specModulePath_ne_nil (parts : List (List Char)) (h2 : 2 ≤ parts.length)
    (hne : ∀ part ∈ parts, part ≠ []) :
    joinSep ['.'] (specModuleSegs parts) ≠ [] := by
  unfold specModuleSegs
  by_cases h3 : 3 ≤ parts.length
  · rw [if_pos h3]
    simp [joinSep]
  · rw [if_neg h3]
    cases hdl : parts.dropLast with
    | nil =>
      exfalso
      have := List.length_dropLast parts
      rw [hdl] at this
      simp at this
      omega
    | cons x xs =>
      cases xs with
      | nil =>
        have hx : x ∈ parts := List.dropLast_subset _ (hdl ▸ List.mem_cons_self _ _)
        simpa [joinSep] using hne x hx
      | cons y ys =>
        exfalso
        have := List.length_dropLast parts
        rw [hdl] at this
        simp at this
        omega

/-- The component loop is genuinely stuck on the POSIX double-slash root:
`posixpath.split("//")` returns `("//", "")`, so the Python loop repeats the
same state forever regardless of fuel. -/
lemma splitLoop_stuck_double_slash :
    ∀ (fuel : Nat) (acc : List (List Char)), pySplitPartsFuel fuel ['/', '/'] acc = none := by
  intro fuel acc
  cases fuel with
  | zero => rfl
  | succ n => rfl

/-- A concrete non-returning input of `simplify_file_path`: a double-slash
absolute path outside the project root never leaves the component loop. -/
lemma splitLoop_diverges_example :
    ∀ (fuel : Nat) (acc : List (List Char)),
      pySplitPartsFuel fuel "//a/b.py".data acc = none := by
  intro fuel acc
  cases fuel with
  | zero => rfl
  | succ m =>
    cases m with
    | zero => rfl
    | succ n => exact splitLoop_stuck_double_slash n _

lemma simplify_diverges_on_double_slash :
    simplify_file_path "/proj" "//a/b.py" 1 "f" = none := by
  unfold simplify_file_path simplifyCore simplifyCoreL
  rw [show relativizedL "/proj".data "//a/b.py".data = "//a/b.py".data from rfl]
  rw [show pySplitPartsL "//a/b.py".data [] =
    pySplitPartsFuel ("//a/b.py".data.length + 1) "//a/b.py".data [] from rfl]
  rw [splitLoop_diverges_example]
  rfl

/-- Claim C6 counterexample: the path `"//a/b.py"` is neither empty nor the
sentinel, lies outside the project root, and has parent directory
components, so the claimed algorithm promises the
`<module_prefix>.<filename>:<line>@<func>` tag — but the code's component
loop never terminates on it (POSIX `normpath` keeps the double-slash root
and `os.path.split("//")` returns `("//", "")`), so no tag is ever
returned. -/
theorem claim6_simplify_algorithm_cex :
    simplify_file_path "/proj" "//a/b.py" 1 "f" = none ∧
    ¬ (("//a/b.py" : String) = "" ∨ ("//a/b.py" : String) = "unknown") :=
  ⟨simplify_diverges_on_double_slash, by decide⟩

/-- Claim C6, amended: `simplify_file_path` follows the specified algorithm
whenever its component-collection loop terminates — the sentinel cases
return the unknown tag, and otherwise the tag is built from the spec's
module-prefix selection over the root-relativized components, the
extension-stripped filename, the line number and the function name.  On a
normalized double-slash path outside the project root the loop never
returns and no tag is produced. -/
theorem claim6_simplify_algorithm (root fp : String) (n : Int) (fn : String) :
    ((fp = "" ∨ fp = "unknown") →
      simplify_file_path root fp n fn =
        some (String.mk (tagL "unknown".data (toString n).data fn.data))) ∧
    (∀ parts, ¬ (fp = "" ∨ fp = "unknown") →
      pySplitPartsL (relativizedL root.data fp.data) [] = some parts →
      (parts = [] →
        simplify_file_path root fp n fn =
          some (String.mk (tagL "unknown".data (toString n).data fn.data))) ∧
      (2 ≤ parts.length →
        simplify_file_path root fp n fn =
          some (String.mk (tagL
            (joinSep ['.'] (specModuleSegs parts) ++ '.' :: (pySplitextL (parts.getLastD [])).1)
            (toString n).data fn.data))) ∧
      (parts.length = 1 →
        simplify_file_path root fp n fn =
          some (String.mk (tagL (pySplitextL (parts.getLastD [])).1
            (toString n).data fn.data)))) := by
  have hdata : ∀ s : String, fp = s ↔ fp.data = s.data := by
    intro s
    constructor
    · intro h; rw [h]
    · intro h
      cases fp
      cases s
      exact congrArg String.mk h
  constructor
  · intro hbase
    have hbase' : fp.data = [] ∨ fp.data = "unknown".data := by
      rcases hbase with h | h
      · exact Or.inl ((hdata "").mp h)
      · exact Or.inr ((hdata "unknown").mp h)
    unfold simplify_file_path simplifyCore simplifyCoreL
    rw [if_pos hbase']
    rfl
  · intro parts hbase hps
    have hbase' : ¬ (fp.data = [] ∨ fp.data = "unknown".data) := by
      intro hc
      rcases hc with h | h
      · exact hbase (Or.inl ((hdata "").mpr h))
      · exact hbase (Or.inr ((hdata "unknown").mpr h))
    have hne : ∀ part ∈ parts, part ≠ [] :=
      pySplitPartsFuel_ne_nil _ _ _ _ hps (by intro a ha; cases ha)
    refine ⟨?_, ?_, ?_⟩
    · intro hpe
      unfold simplify_file_path simplifyCore simplifyCoreL
      rw [if_neg hbase']
      simp only [hps]
      rw [if_pos hpe]
      rfl
    · intro h2
      have hpe : ¬ parts = [] := by intro hc; rw [hc] at h2; simp at h2
      have hlen1 : parts.length > 1 := by omega
      unfold simplify_file_path simplifyCore simplifyCoreL
      rw [if_neg hbase']
      simp only [hps]
      rw [if_neg hpe, if_pos hlen1]
      rw [moduleSegs_code_eq_spec parts h2]
      rw [if_pos (specModulePath_ne_nil parts h2 hne)]
      rfl
    · intro h1
      have hpe : ¬ parts = [] := by intro hc; rw [hc] at h1; simp at h1
      have hlen1 : ¬ parts.length > 1 := by omega
      unfold simplify_file_path simplifyCore simplifyCoreL
      rw [if_neg hbase']
      simp only [hps]
      rw [if_neg hpe, if_neg hlen1]
      rfl

/-- Claim C6 witness: a four-segment project path keeps exactly the two
directories nearest the file. -/
theorem claim6_simplify_algorithm_witness :
    simplify_file_path "/proj" "/proj/src/pkg/mod/file.py" 10 "f" =
      some "pkg.mod.file:10@f" := by
  have h := (claim6_simplify_algorithm "/proj" "/proj/src/pkg/mod/file.py" 10 "f").2
    ["src".data, "pkg".data, "mod".data, "file.py".data] (by decide) (by rfl)
  rw [h.2.1 (by decide)]
  rfl

/-! ### Claim theorems for `format_record` -/

/-- Structure of every successful run of `format_record`'s try body: the
resulting record's `extra` is a dict carrying a string `simplified_path`, and
its `callfrom` entry is absent or `None` (it is fully removed on the
callable-callfrom path and was already absent or `None` on the default
path). -/
lemma formatTry_eq_body (root : String) (record : PyDict)
    (extraD : List (String × PyVal))
    (hx : lookupD record "extra" = some (.pdict extraD)) :
    formatTry root record = formatTryBody root record extraD := by
  unfold formatTry
  rw [hx]

lemma formatTry_ok_inversion (root : String) (record : PyDict)
    (extraD : List (String × PyVal)) (r : PyDict)
    (hx : lookupD record "extra" = some (.pdict extraD))
    (h : formatTry root record = some (.ok r)) :
    ∃ d, lookupD r "extra" = some (.pdict d) ∧
      (∃ s, lookupD d "simplified_path" = some (.pstr s)) ∧
      (lookupD d "callfrom" = none ∨ lookupD d "callfrom" = some .pnone) := by
  rw [formatTry_eq_body root record extraD hx] at h
  unfold formatTryBody at h
  cases hcf : (lookupD extraD "callfrom").getD .pnone with
  | pnone =>
    simp only [hcf] at h
    cases hdb : defaultBranch root record with
    | none => simp [hdb] at h
    | some s =>
      rw [hdb] at h
      simp only [Option.map_some', Option.some.injEq, Except.ok.injEq] at h
      subst h
      refine ⟨setD extraD "simplified_path" (.pstr s), lookupD_setD_self _ _ _,
        ⟨s, lookupD_setD_self _ _ _⟩, ?_⟩
      rw [lookupD_setD_ne extraD "simplified_path" "callfrom" _ (by decide)]
      cases hlk : lookupD extraD "callfrom" with
      | none => exact Or.inl rfl
      | some x =>
        rw [hlk] at hcf
        simp only [Option.getD_some] at hcf
        exact Or.inr (by rw [hcf])
  | pobj o =>
    simp only [hcf] at h
    by_cases hcall : o.callable = true
    · rw [if_pos hcall] at h
      cases hloc : get_function_location o with
      | error e => simp [hloc] at h
      | ok loc =>
        simp only [hloc] at h
        cases hsp : simplify_file_path root loc.1 loc.2.1 loc.2.2 with
        | none => simp [hsp] at h
        | some sp =>
          simp only [hsp, Option.some.injEq, Except.ok.injEq] at h
          subst h
          by_cases hhk : hasKeyD (setD extraD "simplified_path" (.pstr sp)) "callfrom" = true
          · rw [if_pos hhk]
            refine ⟨delD (setD extraD "simplified_path" (.pstr sp)) "callfrom",
              lookupD_setD_self _ _ _, ⟨sp, ?_⟩, Or.inl (lookupD_delD_self _ _)⟩
            rw [lookupD_delD_ne _ "callfrom" "simplified_path" (by decide),
              lookupD_setD_self]
          · rw [if_neg hhk]
            exact ⟨setD extraD "simplified_path" (.pstr sp), lookupD_setD_self _ _ _,
              ⟨sp, lookupD_setD_self _ _ _⟩,
              Or.inl (lookupD_of_hasKeyD_false _ _ (by simpa using hhk))⟩
    · rw [if_neg hcall] at h
      simp at h
  | pbool b => simp [hcf] at h
  | pint n => simp [hcf] at h
  | pstr s => simp [hcf] at h
  | pdict d => simp [hcf] at h

/-- Bool-valued observers used to state concrete counterexamples about
`format_record`: whether the call returns normally, whether it lets an
exception escape, and whether the returned record still carries a `callfrom`
key in its `extra` mapping. -/
def returnsOk (root : String) (record : PyDict) : Bool :=
  match format_record root record with
  | some (.ok _) => true
  | _ => false

/-- Observer: `format_record` raised (its result is an escaping error). -/
def raisesError (root : String) (record : PyDict) : Bool :=
  match format_record root record with
  | some (.error _) => true
  | _ => false

/-- Observer: `format_record` returned normally and the record's `extra`
still contains the `callfrom` key. -/
def keepsCallfrom (root : String) (record : PyDict) : Bool :=
  match format_record root record with
  | some (.ok r) =>
    match lookupD r "extra" with
    | some (.pdict d) => hasKeyD d "callfrom"
    | _ => false
  | _ => false

/-- Claim C1 counterexample: a record whose `extra.callfrom` is the
non-callable value `1`.  The `TypeError` raised at line 170 jumps to the
outer `except` before the `del` at line 184, so `format_record` returns
normally with the `callfrom` key still present in `extra` — refuting "the
record's extra mapping never contains the key callfrom ... including when the
supplied callfrom value is not callable". -/
theorem claim1_callfrom_strip_cex :
    returnsOk "/proj" [("extra", .pdict [("callfrom", .pint 1)])] = true ∧
    keepsCallfrom "/proj" [("extra", .pdict [("callfrom", .pint 1)])] = true :=
  ⟨rfl, rfl⟩

/-- Claim C1, amended: whenever the try body of `format_record` completes
without an internal exception (so in particular whenever the supplied
callfrom was a callable that resolved and simplified successfully, or was
absent), the returned record's `extra` never maps `callfrom` to a non-`None`
value: the key is removed outright on the callable path, and on the default
path it can only be present with value `None`.  When the callfrom is
non-callable or resolution raises, the neutralizing handler leaves the key
untouched. -/
theorem claim1_callfrom_strip (root : String) (record : PyDict) (r : PyDict)
    (h : formatTry root (setD record "extra" ((lookupD record "extra").getD (.pdict []))) =
      some (.ok r)) :
    format_record root record = some (.ok r) ∧
    ∀ d, lookupD r "extra" = some (.pdict d) →
      lookupD d "callfrom" = none ∨ lookupD d "callfrom" = some .pnone := by
  have hfr : format_record root record = some (.ok r) := by
    simp only [format_record, h]
  refine ⟨hfr, ?_⟩
  cases hx0 : (lookupD record "extra").getD (.pdict []) with
  | pdict extraD =>
    have hx : lookupD (setD record "extra" ((lookupD record "extra").getD (.pdict []))) "extra" =
        some (.pdict extraD) := by
      rw [lookupD_setD_self, hx0]
    obtain ⟨d0, hd0, _, hcf⟩ := formatTry_ok_inversion root _ extraD r hx h
    intro d hd
    rw [hd0] at hd
    cases hd
    exact hcf
  | pnone => simp only [formatTry, lookupD_setD_self, hx0] at h; simp at h
  | pbool b => simp only [formatTry, lookupD_setD_self, hx0] at h; simp at h
  | pint n => simp only [formatTry, lookupD_setD_self, hx0] at h; simp at h
  | pstr s => simp only [formatTry, lookupD_setD_self, hx0] at h; simp at h
  | pobj o => simp only [formatTry, lookupD_setD_self, hx0] at h; simp at h

/-- A well-behaved callable callfrom: compiled-code introspection succeeds. -/
def goodFn : PyObj :=
  { callable := true
    core := { code := some ("/proj/src/a.py", 12), name := some "f",
              getfileLine := none, module := none }
    unwrapped := none }

/-- Claim C1 witness: a record with a resolvable callable callfrom comes out
with `callfrom` deleted and the simplified tag stored. -/
theorem claim1_callfrom_strip_witness :
    format_record "/proj" [("extra", .pdict [("callfrom", .pobj goodFn)])] =
      some (.ok [("extra", .pdict [("simplified_path", .pstr "src.a:12@f")])]) ∧
    (lookupD [("simplified_path", PyVal.pstr "src.a:12@f")] "callfrom" = none ∨
      lookupD [("simplified_path", PyVal.pstr "src.a:12@f")] "callfrom" = some .pnone) := by
  have h := claim1_callfrom_strip "/proj" [("extra", .pdict [("callfrom", .pobj goodFn)])]
    [("extra", .pdict [("simplified_path", .pstr "src.a:12@f")])] (by rfl)
  exact ⟨h.1, h.2 _ rfl⟩

/-- Claim C2 counterexample: a record whose `extra` entry is present but not
a mapping (`extra = 5`).  The `AttributeError` from `record["extra"].get`
enters the outer `except`, whose own item assignment on the non-mapping then
raises `TypeError`, which escapes — refuting "format_record never raises". -/
theorem claim2_never_raises_cex :
    raisesError "/proj" [("extra", .pint 5)] = true := rfl

/-- Claim C2, amended: for every record whose `extra` entry is absent or a
mapping, `format_record` never lets an exception escape; whenever it returns
normally the record's `extra` carries a string `simplified_path`, and if the
try body ended in an internal exception, that path is exactly
`"unknown:0@unknown"`.  (A record whose `extra` is a non-mapping makes the
neutralizing handler itself raise.) -/
theorem claim2_never_raises (root : String) (record : PyDict)
    (h : lookupD record "extra" = none ∨ ∃ d, lookupD record "extra" = some (.pdict d)) :
    (∀ e, format_record root record ≠ some (.error e)) ∧
    (∀ r, format_record root record = some (.ok r) →
      ∃ d s, lookupD r "extra" = some (.pdict d) ∧
        lookupD d "simplified_path" = some (.pstr s)) ∧
    (∀ e, formatTry root (setD record "extra" ((lookupD record "extra").getD (.pdict []))) =
        some (.error e) →
      ∃ r d, format_record root record = some (.ok r) ∧
        lookupD r "extra" = some (.pdict d) ∧
        lookupD d "simplified_path" = some (.pstr "unknown:0@unknown")) := by
  obtain ⟨d0, hd0⟩ : ∃ d0, (lookupD record "extra").getD (.pdict []) = .pdict d0 := by
    rcases h with hnone | ⟨d, hd⟩
    · exact ⟨[], by rw [hnone]; rfl⟩
    · exact ⟨d, by rw [hd]; rfl⟩
  have hx : lookupD (setD record "extra" ((lookupD record "extra").getD (.pdict []))) "extra" =
      some (.pdict d0) := by
    rw [lookupD_setD_self, hd0]
  refine ⟨?_, ?_, ?_⟩
  · intro e hcontra
    simp only [format_record, hd0] at hcontra
    cases hft : formatTry root (setD record "extra" (.pdict d0)) with
    | none => simp [hft] at hcontra
    | some res =>
      cases res with
      | ok r => simp [hft] at hcontra
      | error e' => simp [hft] at hcontra
  · intro r hr
    simp only [format_record, hd0] at hr
    cases hft : formatTry root (setD record "extra" (.pdict d0)) with
    | none => simp [hft] at hr
    | some res =>
      cases res with
      | ok r' =>
        simp only [hft, Option.some.injEq, Except.ok.injEq] at hr
        subst hr
        obtain ⟨d, hd, ⟨s, hs⟩, _⟩ :=
          formatTry_ok_inversion root _ d0 r' (lookupD_setD_self _ _ _) hft
        exact ⟨d, s, hd, hs⟩
      | error e' =>
        simp only [hft, Option.some.injEq, Except.ok.injEq] at hr
        subst hr
        exact ⟨setD d0 "simplified_path" (.pstr "unknown:0@unknown"), "unknown:0@unknown",
          lookupD_setD_self _ _ _, lookupD_setD_self _ _ _⟩
  · intro e hft
    rw [hd0] at hft
    refine ⟨setD (setD record "extra" (.pdict d0)) "extra"
        (.pdict (setD d0 "simplified_path" (.pstr "unknown:0@unknown"))),
      setD d0 "simplified_path" (.pstr "unknown:0@unknown"), ?_, lookupD_setD_self _ _ _,
      lookupD_setD_self _ _ _⟩
    simp [format_record, hd0, hft]

/-- Claim C2 witness: a record with a non-callable callfrom (a string) is
neutralized — no exception escapes and the unknown tag is stored. -/
theorem claim2_never_raises_witness :
    format_record "/proj" [("extra", .pdict [("callfrom", .pstr "oops")])] ≠
      some (.error "TypeError") ∧
    format_record "/proj" [("extra", .pdict [("callfrom", .pstr "oops")])] =
      some (.ok [("extra", .pdict [("callfrom", .pstr "oops"),
        ("simplified_path", .pstr "unknown:0@unknown")])]) := by
  have h := claim2_never_raises "/proj" [("extra", .pdict [("callfrom", .pstr "oops")])]
    (Or.inr ⟨[("callfrom", .pstr "oops")], rfl⟩)
  exact ⟨h.1 "TypeError", rfl⟩

/-! ### Claim theorems for the logger side -/

/-- Claim C4 counterexample: when `os.makedirs` cannot create the configured
log directory, the failure happens outside `_setup_file_logging`'s
try/except, so an exception escapes initialization instead of entering
degraded mode — refuting "no exception escapes to the caller". -/
theorem claim4_degraded_cex :
    initLogger false true true ⟨true, false⟩ = .error "OSError" := rfl

/-- Claim C4, amended: when the log directory is created (or already exists)
and the file-sink `logger.add` call itself fails, no exception escapes, the
effective configuration ends with `enable_file_logging = false` and
`enable_console_logging = true` (even when console logging was disabled), and
at least one console handler is installed so records still reach the
console. -/
theorem claim4_degraded (b : Bool) :
    initLogger true false true ⟨true, b⟩ = .ok (⟨false, true⟩, 0, if b then 1 else 2) ∧
    1 ≤ (if b then (1 : Nat) else 2) := by
  cases b <;> exact ⟨rfl, by decide⟩

/-- Claim C7 counterexample: calling `set_level(X)` twice in a row when `X`
already equals the current configured level performs zero sink rebuilds, not
exactly one. -/
theorem claim7_idempotent_cex :
    (set_level ⟨10, 0⟩ (.num 10)).rebuilds = 0 ∧
    (set_level (set_level ⟨10, 0⟩ (.num 10)) (.num 10)).rebuilds = 0 := by decide

/-- Claim C7, amended: `set_level` resolves string names case-insensitively
through the canonical table with unknown names falling back to `DEBUG = 10`,
rebuilds exactly once when the resolved level differs from the current one
and not at all otherwise, and a repeated call with the same argument is a
no-op — so two calls in a row rebuild at most once (exactly once when the
resolved level differs from the current level). -/
theorem claim7_level_gating (st : LogState) (lv : LevelArg) :
    set_level (set_level st lv) lv = set_level st lv ∧
    (resolve_level lv = st.level → set_level st lv = st) ∧
    (resolve_level lv ≠ st.level →
      (set_level st lv).rebuilds = st.rebuilds + 1 ∧
      (set_level (set_level st lv) lv).rebuilds = st.rebuilds + 1) ∧
    (∀ s t : String, pyUpper s = pyUpper t →
      resolve_level (.name s) = resolve_level (.name t)) ∧
    (∀ s : String, lookupLevel (pyUpper s) = none →
      resolve_level (.name s) = DEFAULT_LOG_LEVEL) := by
  refine ⟨?_, ?_, ?_, ?_, ?_⟩
  · by_cases h : resolve_level lv = st.level <;> simp [set_level, h]
  · intro h; simp [set_level, h]
  · intro h; constructor <;> simp [set_level, h]
  · intro s t h; simp [resolve_level, h]
  · intro s h; simp [resolve_level, h]

/-- Claim C7 witness: a lowercase name resolves through the table and a
repeat call is a no-op after the single rebuild. -/
theorem claim7_level_gating_witness :
    set_level (set_level ⟨20, 0⟩ (.name "dEbUg")) (.name "dEbUg") =
      set_level ⟨20, 0⟩ (.name "dEbUg") ∧
    (set_level ⟨20, 0⟩ (.name "dEbUg")).rebuilds = 0 + 1 := by
  refine ⟨(claim7_level_gating ⟨20, 0⟩ (.name "dEbUg")).1, ?_⟩
  exact ((claim7_level_gating ⟨20, 0⟩ (.name "dEbUg")).2.2.1 (by decide)).1

/-- Claim C9 counterexample: passing an explicit `enable_console_logging =
False` in a development environment yields an effective console enablement of
`True` (because of the `or IS_DEV` fallback), refuting "the effective
configuration's console-enablement equals that boolean". -/
theorem claim9_console_cex :
    (initSinkCfg true (some false) true).enable_console_logging = true := rfl

/-- Claim C9, amended: `enable_file_logging` is stored verbatim; the
development default applies when `enable_console_logging` is unspecified, but
also overrides an explicit `False` — the effective console enablement is the
disjunction of the passed boolean and the development flag, and equals the
passed boolean only outside development mode (or when `True` was passed). -/
theorem claim9_sink_toggles (file b isDev : Bool) :
    (initSinkCfg file (some b) isDev).enable_file_logging = file ∧
    (initSinkCfg file none isDev).enable_console_logging = isDev ∧
    (initSinkCfg file (some b) isDev).enable_console_logging = (b || isDev) ∧
    (initSinkCfg file (some b) false).enable_console_logging = b := by
  cases file <;> cases b <;> cases isDev <;> decide

/-- Claim C8: two construction calls of the same class without an intervening
reset return the identical instance whatever the argument lists; resetting
removes the registry entry; the next construction after a reset returns a
fresh instance, distinct from the old one. -/
theorem claim8_singleton (r : Registry) (cls : Nat) (A B : List Int) (hwf : wfReg r) :
    (construct (construct r cls A).2 cls B).1 = (construct r cls A).1 ∧
    lookupReg (reset_instance (construct r cls A).2 cls) cls = none ∧
    (construct (reset_instance (construct r cls A).2 cls) cls B).1 ≠ (construct r cls A).1 := by
  refine ⟨?_, lookupReg_reset _ _, ?_⟩
  · rw [construct_of_lookup_some _ cls B _ (lookupReg_construct r cls A)]
  · have h1 : (construct r cls A).1 < (construct r cls A).2.next :=
      construct_fst_lt r cls A hwf
    have h2 : (construct (reset_instance (construct r cls A).2 cls) cls B).1 =
        (reset_instance (construct r cls A).2 cls).next := by
      rw [construct_of_lookup_none _ cls B (lookupReg_reset _ _)]
    have h3 : (reset_instance (construct r cls A).2 cls).next =
        (construct r cls A).2.next := rfl
    rw [h2, h3]
    omega

/-- Claim C8 witness: starting from an empty registry. -/
theorem claim8_singleton_witness :
    (construct (construct ⟨[], 0⟩ 1 [5]).2 1 [7]).1 = (construct ⟨[], 0⟩ 1 [5]).1 ∧
    lookupReg (reset_instance (construct ⟨[], 0⟩ 1 [5]).2 1) 1 = none ∧
    (construct (reset_instance (construct ⟨[], 0⟩ 1 [5]).2 1) 1 [7]).1 ≠
      (construct ⟨[], 0⟩ 1 [5]).1 :=
  claim8_singleton ⟨[], 0⟩ 1 [5] [7] (by intro e he; simp at he)

end Xtlog
